import Mathlib

/-!
Verification of the multipart/form-data plugin core (index.js).

The definitions below are a shallow embedding of the request-scoped API
implemented in index.js (the variant of the file kept in the repository
that matches the test suite and package metadata: it carries the
file-limit handler and the synchronous accessors).  Temp-file paths are
modelled as natural numbers allocated sequentially, byte contents by
their lengths, and the filesystem as a list of live paths (for cleanup)
or a partial map from path to size (for the size getter).
-/

namespace FastifyMultipart

/-- The limits object of the plugin configuration (config.limits).
Only the three ceilings observed by the orchestrator handlers are kept;
the remaining busboy knobs (fieldNameSize, fieldSize, headerPairs) only
cause internal truncation and are not consulted by any handler. -/
structure Limits where
  fileSize : Nat
  files : Nat
  fields : Nat
deriving DecidableEq, Repr

/-- The plugin defaults (lines 21-28 of index.js). -/
def defaultLimits : Limits := ⟨1024 * 1024 * 10, 10, 20⟩

/-- The info object busboy hands to a file handler.  JavaScript treats a
missing property and the empty string alike as falsy, so each member is
an Option that may also hold the empty string. -/
structure FileInfo where
  filename : Option String
  encoding : Option String
  mimeType : Option String
deriving DecidableEq, Repr

/-- JavaScript or-default on a possibly missing string:
info.filename || defaultValue.  A present empty string is falsy. -/
def orDefault (o : Option String) (d : String) : String :=
  match o with
  | none => d
  | some s => if s = "" then d else s

/-- A string that JavaScript considers falsy in an info object:
either absent or the empty string. -/
def strFalsy (o : Option String) : Prop := o = none ∨ o = some ""

/-- A raw file part of the incoming multipart body; size is the byte
length of its content. -/
structure RawFile where
  fieldname : String
  info : FileInfo
  size : Nat
deriving DecidableEq, Repr

/-- One raw part of the multipart body fed to the tokenizer. -/
inductive RawPart
  | fieldP (name value : String)
  | fileP (f : RawFile)
deriving DecidableEq, Repr

/-- A field value as stored in the fields object: a plain string or an
array of strings once a repeated name has been promoted. -/
inductive FieldVal
  | str (s : String)
  | arr (vs : List String)
deriving DecidableEq, Repr

/-- Lookup in the fields object (own properties only). -/
def getField : List (String × FieldVal) → String → Option FieldVal
  | [], _ => none
  | (n, v) :: rest, name => if n = name then some v else getField rest name

/-- Assignment in the fields object, preserving insertion order. -/
def setField : List (String × FieldVal) → String → FieldVal → List (String × FieldVal)
  | [], name, v => [(name, v)]
  | (n, w) :: rest, name, v =>
      if n = name then (name, v) :: rest else (n, w) :: setField rest name v

/-- The field handler (lines 139-149 of index.js):
if (fields[fieldname]) then wrap a non-array into an array and push,
else assign the plain string.  A stored empty string is falsy in the
JavaScript condition, so it is overwritten rather than promoted. -/
def addField (fields : List (String × FieldVal)) (name value : String) :
    List (String × FieldVal) :=
  match getField fields name with
  | some (.str s) =>
      if s = "" then setField fields name (.str value)
      else setField fields name (.arr [s, value])
  | some (.arr vs) => setField fields name (.arr (vs ++ [value]))
  | none => setField fields name (.str value)

/-- The buffered file descriptor built in the writeStream finish handler
(lines 94-121 of index.js).  The size getter is modelled separately as a
function of the current filesystem, see sizeGetter. -/
structure FileDesc where
  fieldname : String
  filename : String
  encoding : String
  mimetype : String
  tempPath : Nat
deriving DecidableEq, Repr

/-- Building a file descriptor from the file-event data, applying the
JavaScript or-defaults of lines 70-72 of index.js. -/
def mkDesc (fieldname : String) (info : FileInfo) (tempPath : Nat) : FileDesc :=
  { fieldname := fieldname
    filename := orDefault info.filename "unnamed"
    encoding := orDefault info.encoding "7bit"
    mimetype := orDefault info.mimeType "application/octet-stream"
    tempPath := tempPath }

/-- The consolidated result object { files, fields, _tempFiles }. -/
structure ParseResult where
  files : List FileDesc
  fields : List (String × FieldVal)
  tempFiles : List Nat
deriving DecidableEq, Repr

/-- The error taxonomy of the parse promise. -/
inductive ParseError
  | fileSizeLimit
  | filesLimit
  | fieldsLimit
  | invalidContentType
deriving DecidableEq, Repr

/-- How one parseMultipart call can end: the promise resolves, rejects,
or never settles because no further events arrive from the stream. -/
inductive CallOutcome
  | resolved (r : ParseResult)
  | rejected (e : ParseError)
  | pending
deriving DecidableEq, Repr

/-- The events busboy emits to the buffered orchestrator.  A file event
carries the limited flag: busboy truncates the file stream at
limits.fileSize and raises the limit sub-event exactly when the raw
content was longer. -/
inductive TokEv
  | fieldEv (name value : String)
  | fileEv (fieldname : String) (info : FileInfo) (limited : Bool)
  | finishEv
  | filesLimitEv
  | fieldsLimitEv
deriving DecidableEq, Repr

/-- The busboy tokenizer on a fresh body: emits field and file events in
stream order, a files or fields limit event at the first part beyond the
respective ceiling, and a finish event at the end of the body. -/
def tokenizeGo (L : Limits) : Nat → Nat → List RawPart → List TokEv
  | _, _, [] => [.finishEv]
  | nf, nd, .fieldP n v :: rest =>
      if L.fields < nd + 1 then .fieldsLimitEv :: tokenizeGo L nf nd rest
      else .fieldEv n v :: tokenizeGo L nf (nd + 1) rest
  | nf, nd, .fileP f :: rest =>
      if L.files < nf + 1 then .filesLimitEv :: tokenizeGo L nf nd rest
      else .fileEv f.fieldname f.info (decide (L.fileSize < f.size)) ::
        tokenizeGo L (nf + 1) nd rest

def tokenize (L : Limits) (body : List RawPart) : List TokEv :=
  tokenizeGo L 0 0 body

/-- Accumulator of the buffered orchestrator: completed descriptors, the
fields object, temp paths created so far and the next fresh path. -/
structure ParseAcc where
  files : List FileDesc
  fields : List (String × FieldVal)
  tempFiles : List Nat
  nextPath : Nat
deriving DecidableEq, Repr

def initAcc : ParseAcc := ⟨[], [], [], 0⟩

/-- The buffered orchestrator event loop (handlers of lines 66-177 of
index.js), sequentialised: each file write completes before the next
event, so the pending counter is zero at the finish event (the
asynchronous join itself is verified separately on the join machine
below).  A file event first allocates a temp path and starts the write;
on the limit sub-event the handler destroys the write stream and
rejects, leaving no descriptor for that file.  The promise settles at
the first resolve or reject; later events are ignored.  The second
component returns the temp paths created on disk, also on rejection. -/
def runEvents (acc : ParseAcc) : List TokEv → CallOutcome × List Nat
  | [] => (.pending, acc.tempFiles)
  | .finishEv :: _ =>
      (.resolved ⟨acc.files, acc.fields, acc.tempFiles⟩, acc.tempFiles)
  | .fieldEv n v :: rest =>
      runEvents { acc with fields := addField acc.fields n v } rest
  | .fileEv fn info limited :: rest =>
      let p := acc.nextPath
      let temps := acc.tempFiles ++ [p]
      if limited then (.rejected .fileSizeLimit, temps)
      else runEvents
        { files := acc.files ++ [mkDesc fn info p]
          fields := acc.fields
          tempFiles := temps
          nextPath := p + 1 } rest
  | .filesLimitEv :: _ => (.rejected .filesLimit, acc.tempFiles)
  | .fieldsLimitEv :: _ => (.rejected .fieldsLimit, acc.tempFiles)

/-- The request scope: the content-type check result, whether the raw
body stream has already been piped and drained, the body parts, and the
two decorated slots request kMultipart (cached) and request kTempFiles
(tracked), both null until a parse resolves. -/
structure Request where
  ctMultipart : Bool
  consumed : Bool
  body : List RawPart
  cached : Option ParseResult
  tracked : Option (List Nat)
deriving DecidableEq, Repr

/-- A freshly decorated request (decorateRequest lines 43-44: both
symbol slots start as null; the stream is unread). -/
def initRequest (ct : Bool) (body : List RawPart) : Request :=
  ⟨ct, false, body, none, none⟩

def mkRequest (body : List RawPart) : Request := initRequest true body

/-- The events the stream actually delivers: an exhausted stream that
was already piped and drained delivers none, so none of the promise
handlers ever run. -/
def streamEvents (L : Limits) (req : Request) : List TokEv :=
  if req.consumed then [] else tokenize L req.body

/-- request.parseMultipart() (lines 46-182 of index.js): reject with
InvalidMultipartContentType before constructing the tokenizer when the
content-type header does not include multipart/form-data, otherwise run
the event loop over the events the stream delivers.  Returns the
outcome together with the temp paths created on disk. -/
def parseMultipartFn (L : Limits) (req : Request) : CallOutcome × List Nat :=
  if req.ctMultipart then runEvents initAcc (streamEvents L req)
  else (.rejected .invalidContentType, [])

/-- The request scope after one parseMultipart call: the stream has
been piped (and is exhausted for any later call); kMultipart and
kTempFiles are assigned only in the resolve paths (lines 128-131 and
156-159 of index.js). -/
def afterCall (L : Limits) (req : Request) : Request :=
  if req.ctMultipart then
    match (parseMultipartFn L req).1 with
    | .resolved r =>
        { req with consumed := true, cached := some r, tracked := some r.tempFiles }
    | _ => { req with consumed := true }
  else req

/-- The live size getter of a file descriptor (lines 111-117 of
index.js): stat the temp path on the current filesystem at every
access; a stat failure on a missing path yields 0. -/
def sizeGetter (d : FileDesc) (fs : Nat → Option Nat) : Nat :=
  match fs d.tempPath with
  | some n => n
  | none => 0

/-- A JavaScript runtime error surfaced by cleanup. -/
inductive JsError
  | typeError
deriving DecidableEq, Repr

/-- fs.promises.unlink(p).catch(() =&gt; \x7b\x7d): remove the path if
present, absorb the error otherwise. -/
def unlinkAbsorb (fs : List Nat) (p : Nat) : List Nat :=
  fs.filter (fun x => x ≠ p)

/-- The filesystem after deleting every path in the list. -/
def cleanupFs (fs : List Nat) (paths : List Nat) : List Nat :=
  paths.foldl unlinkAbsorb fs

/-- request.cleanupTempFiles(tempFiles) (lines 310-316 of index.js):
filesToClean = tempFiles || this[kTempFiles]; when both are null the
call of .map on null throws a TypeError; otherwise every path is
unlinked with individual errors absorbed. -/
def cleanupTempFiles (arg : Option (List Nat)) (tracked : Option (List Nat))
    (fs : List Nat) : Except JsError (List Nat) :=
  match (match arg with | some l => some l | none => tracked) with
  | none => .error .typeError
  | some paths => .ok (cleanupFs fs paths)

/-- The automatic onResponse hook (lines 327-332 of index.js): only
calls cleanupTempFiles when the tracked slot holds a non-empty array. -/
def onResponseHook (tracked : Option (List Nat)) (fs : List Nat) :
    Except JsError (List Nat) :=
  match tracked with
  | some paths =>
      if paths.length > 0 then cleanupTempFiles none (some paths) fs
      else .ok fs
  | none => .ok fs

/-- The file entry pushed by the parts iterator file handler (lines
239-247 of index.js), string members only. -/
structure StreamFilePart where
  fieldname : String
  filename : String
  encoding : String
  mimetype : String
deriving DecidableEq, Repr

def mkStreamFilePart (fieldname : String) (info : FileInfo) : StreamFilePart :=
  { fieldname := fieldname
    filename := orDefault info.filename "unnamed"
    encoding := orDefault info.encoding "7bit"
    mimetype := orDefault info.mimeType "application/octet-stream" }

/-!
The asynchronous resolve join of the buffered orchestrator.  The three
resolve-relevant events of the promise body are the start of a file
write (the file handler, pendingFiles++), the flush of one write (the
writeStream finish handler, pendingFiles-- then resolve if busboy is
finished), and the busboy finish event (set the finished flag then
resolve if no write is pending).  We verify the join over arbitrary
well-formed interleavings of these events.
-/

inductive JoinEv
  | fileStart
  | writeFlush
  | bbFinish
deriving DecidableEq, Repr

/-- The promise-local state: the pendingFiles counter, the finished
flag, and whether resolve has been called (latched, a promise settles
once). -/
structure JoinState where
  pending : Nat
  finished : Bool
  resolved : Bool
deriving DecidableEq, Repr

/-- One event handler step (lines 66-161 of index.js, restricted to the
counter and the two resolve sites). -/
def joinStep (s : JoinState) : JoinEv → JoinState
  | .fileStart => { s with pending := s.pending + 1 }
  | .writeFlush =>
      let p := s.pending - 1
      { s with
        pending := p
        resolved := s.resolved || (decide (p = 0) && s.finished) }
  | .bbFinish =>
      { s with
        finished := true
        resolved := s.resolved || decide (s.pending = 0) }

def joinRun (evs : List JoinEv) : JoinState :=
  evs.foldl joinStep ⟨0, false, false⟩

/-- Well-formed event interleavings from a given pending count and
finished flag: a flush only follows an unflushed start, and busboy
emits no further file event and no second finish after its finish. -/
def wfFrom : Nat → Bool → List JoinEv → Bool
  | _, _, [] => true
  | p, fin, .fileStart :: rest => !fin && wfFrom (p + 1) fin rest
  | p, fin, .writeFlush :: rest => decide (0 < p) && wfFrom (p - 1) fin rest
  | p, fin, .bbFinish :: rest => !fin && wfFrom p true rest

/-!
The streaming parts iterator byte counter.  The file handler of the
iterator (lines 215-248 of index.js) counts the bytes of every data
chunk the tokenizer produces for one file part, independently of the
built-in truncation of the tokenizer; when the running count exceeds
the configured fileSize (and the configured value is truthy, that is,
positive) it destroys the part stream with a FileSizeLimit error and
records the terminal error, forwarding nothing further; otherwise the
chunk is forwarded to the PassThrough the caller consumes.  Chunks are
modelled by their byte lengths.
-/

structure StreamAcc where
  fileSize : Nat
  forwarded : List Nat
  destroyed : Bool
  errorSet : Bool
deriving DecidableEq, Repr

def initStreamAcc : StreamAcc := ⟨0, [], false, false⟩

/-- One data-event step of the iterator file handler.  A destroyed
stream emits no further data, so the state is frozen. -/
def fileChunkStep (limit : Nat) (acc : StreamAcc) (chunk : Nat) : StreamAcc :=
  if acc.destroyed then acc
  else
    let n := acc.fileSize + chunk
    if 0 < limit ∧ limit < n then
      { acc with fileSize := n, destroyed := true, errorSet := true }
    else
      { acc with fileSize := n, forwarded := acc.forwarded ++ [chunk] }

def chunkRun (limit : Nat) (chunks : List Nat) : StreamAcc :=
  chunks.foldl (fileChunkStep limit) initStreamAcc

/-! Theorems. -/

lemma orDefault_falsy (o : Option String) (d : String) (h : strFalsy o) :
    orDefault o d = d := by
  rcases h with h | h <;> simp [orDefault, h]

/-- C4: if the content-type header does not declare multipart/form-data,
parseMultipart rejects with InvalidContentType, before any temp file is
created and before the tokenizer is started (the call creates no temp
path and never inspects the body). -/
theorem parse_invalid_content_type (L : Limits) (req : Request)
    (h : req.ctMultipart = false) :
    parseMultipartFn L req = (.rejected .invalidContentType, []) := by
  simp [parseMultipartFn, h]

/-- Witness for C4: a JSON request rejects with no temp path created. -/
theorem parse_invalid_content_type_witness :
    parseMultipartFn defaultLimits (initRequest false [.fieldP "a" "b"]) =
      (.rejected .invalidContentType, []) :=
  parse_invalid_content_type defaultLimits (initRequest false [.fieldP "a" "b"]) rfl

/-- C8: the size member of a file descriptor is computed live by
stat-ing tempPath at each access: a missing temp file yields 0, a
present one yields its on-disk size, and a later change of the disk is
reflected because nothing is cached. -/
theorem size_getter_live (d : FileDesc) (fs fs2 : Nat → Option Nat) (n : Nat) :
    (fs d.tempPath = none → sizeGetter d fs = 0)
    ∧ (fs d.tempPath = some n → sizeGetter d fs = n)
    ∧ sizeGetter d (fun q => if q = d.tempPath then some n else fs2 q) = n := by
  refine ⟨fun h => by simp [sizeGetter, h], fun h => by simp [sizeGetter, h],
    by simp [sizeGetter]⟩

/-- Witness for C8: on an empty disk the size is 0, after the temp file
appears with 5 bytes the same getter returns 5. -/
theorem size_getter_live_witness :
    sizeGetter (mkDesc "f" ⟨none, none, none⟩ 0) (fun _ => none) = 0
    ∧ sizeGetter (mkDesc "f" ⟨none, none, none⟩ 0)
        (fun q => if q = (mkDesc "f" ⟨none, none, none⟩ 0).tempPath
          then some 5 else (fun _ => none) q) = 5 :=
  ⟨(size_getter_live (mkDesc "f" ⟨none, none, none⟩ 0) (fun _ => none)
      (fun _ => none) 5).1 rfl,
   (size_getter_live (mkDesc "f" ⟨none, none, none⟩ 0) (fun _ => none)
      (fun _ => none) 5).2.2⟩

/-- C9: a falsy filename, encoding or mimeType in the tokenizer info is
replaced by the defaults unnamed, 7bit and application/octet-stream, in
the buffered file descriptor and in the streaming file part alike. -/
theorem info_defaults (fieldname : String) (info : FileInfo) (p : Nat) :
    (strFalsy info.filename →
      (mkDesc fieldname info p).filename = "unnamed"
      ∧ (mkStreamFilePart fieldname info).filename = "unnamed")
    ∧ (strFalsy info.encoding →
      (mkDesc fieldname info p).encoding = "7bit"
      ∧ (mkStreamFilePart fieldname info).encoding = "7bit")
    ∧ (strFalsy info.mimeType →
      (mkDesc fieldname info p).mimetype = "application/octet-stream"
      ∧ (mkStreamFilePart fieldname info).mimetype = "application/octet-stream") := by
  refine ⟨fun h => ?_, fun h => ?_, fun h => ?_⟩ <;>
    simp [mkDesc, mkStreamFilePart, orDefault_falsy _ _ h]

/-- Witness for C9: an info object with an absent filename, an empty
encoding and an absent mimeType gets all three defaults. -/
theorem info_defaults_witness :
    (mkDesc "f" ⟨none, some "", none⟩ 0).filename = "unnamed"
    ∧ (mkStreamFilePart "f" ⟨none, some "", none⟩).encoding = "7bit"
    ∧ (mkDesc "f" ⟨none, some "", none⟩ 0).mimetype = "application/octet-stream" :=
  ⟨((info_defaults "f" ⟨none, some "", none⟩ 0).1 (Or.inl rfl)).1,
   ((info_defaults "f" ⟨none, some "", none⟩ 0).2.1 (Or.inr rfl)).2,
   ((info_defaults "f" ⟨none, some "", none⟩ 0).2.2 (Or.inl rfl)).1⟩

/-- C10: on a freshly decorated request the tracked temp-file slot is
null; calling cleanupTempFiles with no argument then maps over null and
throws a TypeError instead of acting as a no-op, and the slot is still
null after a rejected parse (it is only assigned in the resolve paths). -/
theorem cleanup_before_parse_throws (L : Limits) (ct : Bool)
    (body : List RawPart) (fs : List Nat) :
    (initRequest ct body).tracked = none
    ∧ cleanupTempFiles none (initRequest ct body).tracked fs = .error .typeError
    ∧ (∀ e, (parseMultipartFn L (initRequest ct body)).1 = .rejected e →
        cleanupTempFiles none (afterCall L (initRequest ct body)).tracked fs =
          .error .typeError) := by
  refine ⟨rfl, rfl, fun e he => ?_⟩
  unfold afterCall
  by_cases hct : (initRequest ct body).ctMultipart
  · rw [if_pos hct, he]
    rfl
  · rw [if_neg hct]
    rfl

/-- Witness for C10: a JSON request whose parse rejected still has a
null tracked slot, and manual cleanup throws. -/
theorem cleanup_before_parse_throws_witness :
    cleanupTempFiles none
      (afterCall defaultLimits (initRequest false [])).tracked [] =
      .error .typeError :=
  (cleanup_before_parse_throws defaultLimits false [] []).2.2
    .invalidContentType rfl

lemma mem_cleanupFs (paths : List Nat) (fs : List Nat) (x : Nat) :
    x ∈ cleanupFs fs paths ↔ x ∈ fs ∧ x ∉ paths := by
  induction paths generalizing fs with
  | nil => simp [cleanupFs]
  | cons p ps ih =>
      simp only [cleanupFs, List.foldl_cons] at *
      rw [ih]
      simp only [unlinkAbsorb, List.mem_filter, List.mem_cons, decide_eq_true_eq]
      constructor
      · rintro ⟨⟨hf, hne⟩, hps⟩
        exact ⟨hf, by simp [hne, hps]⟩
      · rintro ⟨hf, hall⟩
        push_neg at hall
        exact ⟨⟨hf, hall.1⟩, hall.2⟩

lemma cleanupFs_stable (paths : List Nat) (fs : List Nat)
    (h : ∀ p ∈ paths, p ∉ fs) : cleanupFs fs paths = fs := by
  induction paths generalizing fs with
  | nil => rfl
  | cons p ps ih =>
      have hfs : unlinkAbsorb fs p = fs := by
        apply List.filter_eq_self.mpr
        intro a ha
        have : a ≠ p := fun hc => h p (by simp) (hc ▸ ha)
        simpa using this
      simp only [cleanupFs, List.foldl_cons, hfs]
      exact ih fs (fun q hq => h q (by simp [hq]))

/-- C6: temp-file cleanup is idempotent and never raises.  With the
tracked paths of a parsed request, a manual call succeeds, a second
manual call succeeds and changes nothing, the automatic onResponse hook
run after a manual call succeeds and changes nothing, and afterwards no
tracked temp file of the request remains on disk. -/
theorem cleanup_idempotent (paths fs : List Nat) :
    cleanupTempFiles none (some paths) fs = .ok (cleanupFs fs paths)
    ∧ cleanupTempFiles none (some paths) (cleanupFs fs paths) =
        .ok (cleanupFs fs paths)
    ∧ onResponseHook (some paths) (cleanupFs fs paths) = .ok (cleanupFs fs paths)
    ∧ ∀ p ∈ paths, p ∉ cleanupFs fs paths := by
  have hstable : cleanupFs (cleanupFs fs paths) paths = cleanupFs fs paths := by
    apply cleanupFs_stable
    intro p hp hmem
    exact ((mem_cleanupFs paths fs p).mp hmem).2 hp
  refine ⟨rfl, ?_, ?_, ?_⟩
  · simp [cleanupTempFiles, hstable]
  · by_cases hlen : paths.length > 0
    · simp only [onResponseHook, hlen, if_true]
      simp [cleanupTempFiles, hstable]
    · have : paths = [] := by
        cases paths with
        | nil => rfl
        | cons a l => simp at hlen
      subst this
      rfl
  · intro p hp hmem
    exact ((mem_cleanupFs paths fs p).mp hmem).2 hp

/-- Witness for C6: request temp paths 1 and 2 on a disk holding 1 and
3; after cleanup only 3 remains, a second cleanup and the automatic
hook leave it untouched, and path 1 is gone. -/
theorem cleanup_idempotent_witness :
    cleanupTempFiles none (some [1, 2]) [1, 3] = .ok [3]
    ∧ cleanupTempFiles none (some [1, 2]) [3] = .ok [3]
    ∧ onResponseHook (some [1, 2]) [3] = .ok [3]
    ∧ (1 : Nat) ∉ ([3] : List Nat) := by
  have h := cleanup_idempotent [1, 2] [1, 3]
  exact ⟨h.1, h.2.1, h.2.2.1, h.2.2.2 1 (by decide)⟩

/-- C2 counterexample: after a first resolved parse of a one-field body
the request is cached, but a second parseMultipart call does not return
the cached ParseResult: it pipes the exhausted stream, receives no
events, and the promise stays pending forever. -/
theorem parse_cache_counterexample :
    (parseMultipartFn defaultLimits (mkRequest [.fieldP "a" "x"])).1 =
      .resolved ⟨[], [("a", .str "x")], []⟩
    ∧ (parseMultipartFn defaultLimits
        (afterCall defaultLimits (mkRequest [.fieldP "a" "x"]))).1 = .pending
    ∧ CallOutcome.pending ≠
        CallOutcome.resolved ⟨[], [("a", FieldVal.str "x")], []⟩ := by
  decide

/-- C2 as amended: parseMultipart never consults the request cache.  A
resolved first call does store its ParseResult in the kMultipart slot
(where only the file and files accessors read it), but a second call on
the now-consumed request never settles: it neither resolves with the
cached result nor rejects, because the exhausted stream delivers no
further tokenizer events. -/
theorem parse_second_call_pending (L : Limits) (req req2 : Request)
    (r : ParseResult) (h1 : req.consumed = true) (h2 : req.ctMultipart = true)
    (h3 : (parseMultipartFn L req2).1 = .resolved r) :
    (parseMultipartFn L req).1 = .pending
    ∧ (afterCall L req2).cached = some r := by
  constructor
  · simp [parseMultipartFn, h2, streamEvents, h1, runEvents]
  · have hct : req2.ctMultipart = true := by
      by_cases hc : req2.ctMultipart
      · exact hc
      · exfalso
        have hf : req2.ctMultipart = false := by simpa using hc
        simp [parseMultipartFn, hf] at h3
    simp [afterCall, hct, h3]

/-- Witness for the amended C2: the concrete request of the
counterexample, after its first resolved call, yields a pending second
call while the cache slot holds the first result. -/
theorem parse_second_call_pending_witness :
    (parseMultipartFn defaultLimits
      (afterCall defaultLimits (mkRequest [.fieldP "a" "x"]))).1 = .pending
    ∧ (afterCall defaultLimits (mkRequest [.fieldP "a" "x"])).cached =
        some ⟨[], [("a", FieldVal.str "x")], []⟩ :=
  parse_second_call_pending defaultLimits
    (afterCall defaultLimits (mkRequest [.fieldP "a" "x"]))
    (mkRequest [.fieldP "a" "x"]) ⟨[], [("a", FieldVal.str "x")], []⟩
    (by decide) (by decide) (by decide)

/-! Helper views of a body: the byte sizes of its file parts, the part
counts the ceilings compare against, and the values a field name takes
in encounter order. -/

def fileSizes : List RawPart → List Nat
  | [] => []
  | .fileP f :: rest => f.size :: fileSizes rest
  | .fieldP _ _ :: rest => fileSizes rest

def countFiles (body : List RawPart) : Nat := (fileSizes body).length

def countFields : List RawPart → Nat
  | [] => 0
  | .fieldP _ _ :: rest => countFields rest + 1
  | .fileP _ :: rest => countFields rest

def valuesFor (name : String) : List RawPart → List String
  | [] => []
  | .fieldP n v :: rest =>
      if n = name then v :: valuesFor name rest else valuesFor name rest
  | .fileP _ :: rest => valuesFor name rest

/-- The effect of one addField call on the binding of one name. -/
def addFieldOne (st : Option FieldVal) (v : String) : Option FieldVal :=
  match st with
  | some (.str s) => if s = "" then some (.str v) else some (.arr [s, v])
  | some (.arr ws) => some (.arr (ws ++ [v]))
  | none => some (.str v)

/-- The binding of one name after a sequence of its values was added. -/
def perNameFold (st : Option FieldVal) : List String → Option FieldVal
  | [] => st
  | v :: vs => perNameFold (addFieldOne st v) vs

lemma getField_setField (fields : List (String × FieldVal)) (name : String)
    (v : FieldVal) (name2 : String) :
    getField (setField fields name v) name2 =
      if name = name2 then some v else getField fields name2 := by
  induction fields with
  | nil => simp [setField, getField]
  | cons hd tl ih =>
      obtain ⟨n, w⟩ := hd
      by_cases h : n = name
      · subst h
        simp only [setField, if_pos rfl, getField]
        by_cases h2 : n = name2 <;> simp [h2]
      · simp only [setField, if_neg h, getField]
        by_cases h2 : n = name2
        · subst h2
          have : ¬ name = n := fun hc => h hc.symm
          simp [getField, if_neg this]
        · simp [getField, h2, ih]

lemma getField_addField (fields : List (String × FieldVal)) (n v name : String) :
    getField (addField fields n v) name =
      if n = name then addFieldOne (getField fields name) v
      else getField fields name := by
  by_cases h : n = name
  · subst h
    unfold addField addFieldOne
    cases hg : getField fields n with
    | none => simp [getField_setField, hg]
    | some fv =>
        cases fv with
        | str s =>
            by_cases hs : s = "" <;> simp [hs, getField_setField, hg]
        | arr ws => simp [getField_setField, hg]
  · unfold addField
    cases hg : getField fields n with
    | none => simp [getField_setField, h]
    | some fv =>
        cases fv with
        | str s =>
            by_cases hs : s = "" <;> simp [hs, getField_setField, h]
        | arr ws => simp [getField_setField, h]

lemma perNameFold_arr (vs : List String) (ws : List String) :
    perNameFold (some (.arr ws)) vs = some (.arr (ws ++ vs)) := by
  induction vs generalizing ws with
  | nil => simp [perNameFold]
  | cons v vs ih => simp [perNameFold, addFieldOne, ih]

/-- The fields object of a resolved buffered parse, projected to one
name, equals the per-name fold of the values that name took in the
body, in encounter order. -/
lemma runEvents_resolved_fields (L : Limits) (body : List RawPart) :
    ∀ (nf nd : Nat) (acc : ParseAcc) (r : ParseResult),
      (runEvents acc (tokenizeGo L nf nd body)).1 = .resolved r →
      ∀ name, getField r.fields name =
        perNameFold (getField acc.fields name) (valuesFor name body) := by
  induction body with
  | nil =>
      intro nf nd acc r h name
      simp only [tokenizeGo, runEvents] at h
      cases h
      simp [valuesFor, perNameFold]
  | cons p rest ih =>
      cases p with
      | fieldP n v =>
          intro nf nd acc r h name
          by_cases hlim : L.fields < nd + 1
          · simp [tokenizeGo, hlim, runEvents] at h
          · simp only [tokenizeGo, if_neg hlim, runEvents] at h
            have := ih nf (nd + 1) _ r h name
            rw [this, getField_addField]
            by_cases hn : n = name
            · simp [valuesFor, hn, perNameFold]
            · simp [valuesFor, hn]
      | fileP f =>
          intro nf nd acc r h name
          by_cases hlim : L.files < nf + 1
          · simp [tokenizeGo, hlim, runEvents] at h
          · by_cases hsz : L.fileSize < f.size
            · simp [tokenizeGo, if_neg hlim, runEvents, hsz] at h
            · simp only [tokenizeGo, if_neg hlim, runEvents,
                decide_eq_true_eq] at h
              rw [if_neg hsz] at h
              have := ih (nf + 1) nd _ r h name
              rw [this]
              simp [valuesFor]

/-- A buffered parse whose file and field counts are within the
ceilings rejects with the file-size error as soon as the tokenizer
limits a file whose content exceeds fileSize. -/
lemma runEvents_reject_oversize (L : Limits) (body : List RawPart) :
    ∀ (nf nd : Nat) (acc : ParseAcc),
      nf + countFiles body ≤ L.files → nd + countFields body ≤ L.fields →
      (∃ s ∈ fileSizes body, L.fileSize < s) →
      (runEvents acc (tokenizeGo L nf nd body)).1 = .rejected .fileSizeLimit := by
  induction body with
  | nil =>
      intro nf nd acc _ _ hex
      simp [fileSizes] at hex
  | cons p rest ih =>
      cases p with
      | fieldP n v =>
          intro nf nd acc hfc hdc hex
          have hlim : ¬ L.fields < nd + 1 := by
            simp only [countFields] at hdc
            omega
          simp only [tokenizeGo, if_neg hlim, runEvents]
          exact ih nf (nd + 1) _ (by simpa [countFiles, fileSizes] using hfc)
            (by simp only [countFields] at hdc; omega)
            (by simpa [fileSizes] using hex)
      | fileP f =>
          intro nf nd acc hfc hdc hex
          have hlim : ¬ L.files < nf + 1 := by
            simp only [countFiles, fileSizes, List.length_cons] at hfc
            omega
          by_cases hsz : L.fileSize < f.size
          · simp [tokenizeGo, if_neg hlim, runEvents, hsz]
          · simp only [tokenizeGo, if_neg hlim, runEvents,
              decide_eq_true_eq]
            rw [if_neg hsz]
            apply ih (nf + 1) nd
            · simp only [countFiles, fileSizes, List.length_cons] at hfc
              simp only [countFiles]
              omega
            · simpa [countFields] using hdc
            · rcases hex with ⟨s, hs, hbig⟩
              simp only [fileSizes, List.mem_cons] at hs
              rcases hs with hs | hs
              · exact absurd (hs ▸ hbig) hsz
              · exact ⟨s, hs, hbig⟩

/-- A buffered parse whose counts are within the ceilings and whose
every file content is at most fileSize bytes (the boundary value
included) resolves. -/
lemma runEvents_resolve_within (L : Limits) (body : List RawPart) :
    ∀ (nf nd : Nat) (acc : ParseAcc),
      nf + countFiles body ≤ L.files → nd + countFields body ≤ L.fields →
      (∀ s ∈ fileSizes body, s ≤ L.fileSize) →
      ∃ r, (runEvents acc (tokenizeGo L nf nd body)).1 = .resolved r := by
  induction body with
  | nil =>
      intro nf nd acc _ _ _
      exact ⟨⟨acc.files, acc.fields, acc.tempFiles⟩, rfl⟩
  | cons p rest ih =>
      cases p with
      | fieldP n v =>
          intro nf nd acc hfc hdc hall
          have hlim : ¬ L.fields < nd + 1 := by
            simp only [countFields] at hdc
            omega
          simp only [tokenizeGo, if_neg hlim, runEvents]
          exact ih nf (nd + 1) _ (by simpa [countFiles, fileSizes] using hfc)
            (by simp only [countFields] at hdc; omega)
            (by simpa [fileSizes] using hall)
      | fileP f =>
          intro nf nd acc hfc hdc hall
          have hlim : ¬ L.files < nf + 1 := by
            simp only [countFiles, fileSizes, List.length_cons] at hfc
            omega
          have hsz : ¬ L.fileSize < f.size := by
            have := hall f.size (by simp [fileSizes])
            omega
          simp only [tokenizeGo, if_neg hlim, runEvents,
            decide_eq_true_eq]
          rw [if_neg hsz]
          apply ih (nf + 1) nd
          · simp only [countFiles, fileSizes, List.length_cons] at hfc
            simp only [countFiles]
            omega
          · simpa [countFields] using hdc
          · intro s hs
            exact hall s (by simp [fileSizes, hs])

/-- C1: in a buffered parse within the file-count and field-count
ceilings, a file part whose byte content exceeds fileSize makes
parseMultipart reject with the file-size error (the handler destroys
the in-progress write and the rejection carries no ParseResult), while
a body whose every file is at most fileSize bytes, the boundary value
included, resolves. -/
theorem parse_file_size_limit (L : Limits) (body : List RawPart)
    (hf : countFiles body ≤ L.files) (hd : countFields body ≤ L.fields) :
    ((∃ s ∈ fileSizes body, L.fileSize < s) →
      (parseMultipartFn L (mkRequest body)).1 = .rejected .fileSizeLimit)
    ∧ ((∀ s ∈ fileSizes body, s ≤ L.fileSize) →
      ∃ r, (parseMultipartFn L (mkRequest body)).1 = .resolved r) := by
  have hrw : parseMultipartFn L (mkRequest body) =
      runEvents initAcc (tokenizeGo L 0 0 body) := by
    simp [parseMultipartFn, mkRequest, initRequest, streamEvents, tokenize]
  constructor
  · intro hex
    rw [hrw]
    exact runEvents_reject_oversize L body 0 0 initAcc
      (by simpa using hf) (by simpa using hd) hex
  · intro hall
    rw [hrw]
    exact runEvents_resolve_within L body 0 0 initAcc
      (by simpa using hf) (by simpa using hd) hall

/-- Witness for C1: with fileSize 5, a 6-byte file rejects with the
file-size error and a file of exactly 5 bytes resolves. -/
theorem parse_file_size_limit_witness :
    (parseMultipartFn ⟨5, 10, 20⟩
      (mkRequest [.fileP ⟨"f", ⟨none, none, none⟩, 6⟩])).1 =
        .rejected .fileSizeLimit
    ∧ ∃ r, (parseMultipartFn ⟨5, 10, 20⟩
      (mkRequest [.fileP ⟨"f", ⟨none, none, none⟩, 5⟩])).1 = .resolved r :=
  ⟨(parse_file_size_limit ⟨5, 10, 20⟩ [.fileP ⟨"f", ⟨none, none, none⟩, 6⟩]
      (by decide) (by decide)).1 (by decide),
   (parse_file_size_limit ⟨5, 10, 20⟩ [.fileP ⟨"f", ⟨none, none, none⟩, 5⟩]
      (by decide) (by decide)).2 (by decide)⟩

/-- C5 counterexample: a field named a submitted twice whose first
value is the empty string.  The stored empty string is falsy in the
JavaScript repeat check, so the second value silently overwrites the
first: the resolved fields hold the scalar x instead of the ordered
pair of both occurrences. -/
theorem fields_overwrite_counterexample :
    (parseMultipartFn defaultLimits
      (mkRequest [.fieldP "a" "", .fieldP "a" "x"])).1 =
        .resolved ⟨[], [("a", .str "x")], []⟩
    ∧ valuesFor "a" [.fieldP "a" "", .fieldP "a" "x"] = ["", "x"]
    ∧ FieldVal.str "x" ≠ FieldVal.arr ["", "x"] := by
  decide

/-- C5 as amended: in a resolved buffered parse, a field name occurring
exactly once maps to its plain string value, and a name occurring k at
least 2 times whose first value is not the empty string maps to the
ordered sequence of all k values in encounter order; a first value
equal to the empty string is silently overwritten by the second
because the stored scalar is falsy in the repeat check. -/
theorem fields_accumulation (L : Limits) (body : List RawPart)
    (r : ParseResult)
    (hres : (parseMultipartFn L (mkRequest body)).1 = .resolved r)
    (name : String) :
    (∀ v, valuesFor name body = [v] → getField r.fields name = some (.str v))
    ∧ (∀ v vs, valuesFor name body = v :: vs → vs ≠ [] → v ≠ "" →
        getField r.fields name = some (.arr (v :: vs))) := by
  have hrun : (runEvents initAcc (tokenizeGo L 0 0 body)).1 = .resolved r := by
    simpa [parseMultipartFn, mkRequest, initRequest, streamEvents, tokenize]
      using hres
  have hf := runEvents_resolved_fields L body 0 0 initAcc r hrun name
  have hnone : getField initAcc.fields name = none := rfl
  rw [hnone] at hf
  constructor
  · intro v hv
    rw [hf, hv]
    simp [perNameFold, addFieldOne]
  · intro v vs hv hne hvne
    rw [hf, hv]
    cases vs with
    | nil => exact absurd rfl hne
    | cons w ws =>
        show perNameFold (addFieldOne none v) (w :: ws) = _
        simp only [addFieldOne]
        show perNameFold (addFieldOne (some (.str v)) w) ws = _
        simp only [addFieldOne, if_neg hvne]
        rw [perNameFold_arr]
        rfl

/-- Witness for the amended C5: the field a submitted as x then y maps
to the ordered array of both values. -/
theorem fields_accumulation_witness :
    getField [("a", FieldVal.arr ["x", "y"])] "a" =
      some (FieldVal.arr ["x", "y"]) :=
  (fields_accumulation defaultLimits [.fieldP "a" "x", .fieldP "a" "y"]
      ⟨[], [("a", FieldVal.arr ["x", "y"])], []⟩ (by decide) "a").2
    "x" ["y"] (by decide) (by decide) (by decide)

/-- Invariant induction over well-formed join event interleavings: the
resolve latch fires only in a state with the finished flag set and a
zero pending counter, and conversely any reachable state with the flag
set and the counter zero has already fired the latch. -/
lemma joinRun_inv (evs : List JoinEv) :
    ∀ (s : JoinState), wfFrom s.pending s.finished evs = true →
      (s.resolved = true → s.finished = true ∧ s.pending = 0) →
      (s.finished = true → s.pending = 0 → s.resolved = true) →
      ((evs.foldl joinStep s).resolved = true →
        (evs.foldl joinStep s).finished = true ∧
          (evs.foldl joinStep s).pending = 0)
      ∧ ((evs.foldl joinStep s).finished = true →
          (evs.foldl joinStep s).pending = 0 →
          (evs.foldl joinStep s).resolved = true) := by
  induction evs with
  | nil =>
      intro s _ hI hJ
      exact ⟨hI, hJ⟩
  | cons e rest ih =>
      intro s hwf hI hJ
      cases e with
      | fileStart =>
          simp only [wfFrom, Bool.and_eq_true, Bool.not_eq_true'] at hwf
          obtain ⟨hfin, hwf⟩ := hwf
          simp only [List.foldl_cons]
          apply ih
          · exact hwf
          · intro hres
            have h2 := (hI hres).1
            rw [hfin] at h2
            exact absurd h2 (by simp)
          · intro hfin2 _
            have : s.finished = false := hfin
            rw [show (joinStep s .fileStart).finished = s.finished from rfl,
              this] at hfin2
            exact absurd hfin2 (by simp)
      | writeFlush =>
          simp only [wfFrom, Bool.and_eq_true, decide_eq_true_eq] at hwf
          obtain ⟨hp, hwf⟩ := hwf
          simp only [List.foldl_cons]
          apply ih
          · exact hwf
          · intro hres
            have hres2 : s.resolved = true ∨
                (decide (s.pending - 1 = 0) && s.finished) = true := by
              have : (joinStep s .writeFlush).resolved =
                  (s.resolved || (decide (s.pending - 1 = 0) && s.finished)) :=
                rfl
              rw [this] at hres
              exact Bool.or_eq_true_iff.mp hres
            rcases hres2 with hres2 | hres2
            · have := (hI hres2).2
              omega
            · simp only [Bool.and_eq_true, decide_eq_true_eq] at hres2
              exact ⟨hres2.2, hres2.1⟩
          · intro h1 h2
            have hq : s.pending - 1 = 0 := h2
            have hfin : s.finished = true := h1
            show (s.resolved || (decide (s.pending - 1 = 0) && s.finished)) = true
            simp [hq, hfin]
      | bbFinish =>
          simp only [wfFrom, Bool.and_eq_true, Bool.not_eq_true'] at hwf
          obtain ⟨hfin, hwf⟩ := hwf
          simp only [List.foldl_cons]
          apply ih
          · exact hwf
          · intro hres
            have hres2 : s.resolved = true ∨ decide (s.pending = 0) = true := by
              have : (joinStep s .bbFinish).resolved =
                  (s.resolved || decide (s.pending = 0)) := rfl
              rw [this] at hres
              exact Bool.or_eq_true_iff.mp hres
            rcases hres2 with hres2 | hres2
            · have := (hI hres2).1
              rw [hfin] at this
              exact absurd this (by simp)
            · simp only [decide_eq_true_eq] at hres2
              exact ⟨rfl, hres2⟩
          · intro _ h2
            have hq : s.pending = 0 := h2
            show (s.resolved || decide (s.pending = 0)) = true
            simp [hq]

/-- C3: over every well-formed interleaving of file-write starts, write
flushes and the tokenizer finish event, the parse promise resolves only
in a state where the tokenizer has finished AND the pending-file-write
counter is zero, never while a write is unflushed; and whenever both
conditions hold, the promise has resolved, regardless of whether the
finish event or the last flush arrived first. -/
theorem resolve_join (evs : List JoinEv) (h : wfFrom 0 false evs = true) :
    ((joinRun evs).resolved = true →
      (joinRun evs).finished = true ∧ (joinRun evs).pending = 0)
    ∧ ((joinRun evs).finished = true → (joinRun evs).pending = 0 →
      (joinRun evs).resolved = true) :=
  joinRun_inv evs ⟨0, false, false⟩ h
    (fun hres => absurd hres (by simp))
    (fun hfin _ => absurd hfin (by simp))

/-- Witness for C3: one file whose flush arrives after the tokenizer
finish; the promise is resolved at the end, in a state with the
finished flag set and no pending write. -/
theorem resolve_join_witness :
    (joinRun [.fileStart, .bbFinish, .writeFlush]).finished = true
    ∧ (joinRun [.fileStart, .bbFinish, .writeFlush]).pending = 0
    ∧ (joinRun [.fileStart, .bbFinish, .writeFlush]).resolved = true :=
  ⟨by decide, by decide,
    (resolve_join [.fileStart, .bbFinish, .writeFlush] (by decide)).2
      (by decide) (by decide)⟩

lemma chunk_fold_destroyed (limit : Nat) (cs : List Nat) :
    ∀ acc : StreamAcc, acc.destroyed = true →
      cs.foldl (fileChunkStep limit) acc = acc := by
  induction cs with
  | nil => intro acc _; rfl
  | cons c cs ih =>
      intro acc h
      simp only [List.foldl_cons, fileChunkStep, h, if_true]
      exact ih acc h

lemma chunk_fold_destroyed_iff (limit : Nat) (cs : List Nat)
    (hlim : 0 < limit) :
    ∀ acc : StreamAcc, acc.destroyed = false → acc.fileSize ≤ limit →
      ((cs.foldl (fileChunkStep limit) acc).destroyed = true ↔
        limit < acc.fileSize + cs.sum) := by
  induction cs with
  | nil =>
      intro acc h hle
      simp [h]
      omega
  | cons c cs ih =>
      intro acc h hle
      simp only [List.foldl_cons, List.sum_cons]
      by_cases hc : limit < acc.fileSize + c
      · have hstep : fileChunkStep limit acc c =
            { acc with
              fileSize := acc.fileSize + c
              destroyed := true
              errorSet := true } := by
          simp [fileChunkStep, h, hlim, hc]
        rw [hstep, chunk_fold_destroyed limit cs _ rfl]
        constructor
        · intro _
          omega
        · intro _
          rfl
      · have hstep : fileChunkStep limit acc c =
            { acc with
              fileSize := acc.fileSize + c
              forwarded := acc.forwarded ++ [c] } := by
          have : ¬ (0 < limit ∧ limit < acc.fileSize + c) := by
            intro hx
            exact hc hx.2
          simp [fileChunkStep, h, this]
        rw [hstep]
        rw [ih { acc with
            fileSize := acc.fileSize + c
            forwarded := acc.forwarded ++ [c] } h
          (show acc.fileSize + c ≤ limit by omega)]
        show limit < acc.fileSize + c + cs.sum ↔ limit < acc.fileSize + (c + cs.sum)
        omega

lemma chunk_fold_inv (limit : Nat) (cs : List Nat) (hlim : 0 < limit) :
    ∀ acc : StreamAcc, acc.errorSet = acc.destroyed →
      acc.forwarded.sum ≤ limit →
      (acc.destroyed = false → acc.fileSize = acc.forwarded.sum) →
      (cs.foldl (fileChunkStep limit) acc).errorSet =
          (cs.foldl (fileChunkStep limit) acc).destroyed
      ∧ (cs.foldl (fileChunkStep limit) acc).forwarded.sum ≤ limit := by
  induction cs with
  | nil =>
      intro acc h1 h2 _
      exact ⟨h1, h2⟩
  | cons c cs ih =>
      intro acc h1 h2 h3
      simp only [List.foldl_cons]
      by_cases hd : acc.destroyed = true
      · rw [show fileChunkStep limit acc c = acc by simp [fileChunkStep, hd]]
        exact ih acc h1 h2 h3
      · have hdf : acc.destroyed = false := by simpa using hd
        by_cases hc : limit < acc.fileSize + c
        · have hstep : fileChunkStep limit acc c =
              { acc with
                fileSize := acc.fileSize + c
                destroyed := true
                errorSet := true } := by
            simp [fileChunkStep, hdf, hlim, hc]
          rw [hstep]
          exact ih _ rfl h2 (by intro hx; exact absurd hx (by simp))
        · have hstep : fileChunkStep limit acc c =
              { acc with
                fileSize := acc.fileSize + c
                forwarded := acc.forwarded ++ [c] } := by
            have : ¬ (0 < limit ∧ limit < acc.fileSize + c) := by
              intro hx
              exact hc hx.2
            simp [fileChunkStep, hdf, this]
          rw [hstep]
          have hfs : acc.fileSize = acc.forwarded.sum := h3 hdf
          apply ih _ (by simpa using h1)
          · simp only [List.sum_append, List.sum_cons, List.sum_nil]
            omega
          · intro _
            simp only [List.sum_append, List.sum_cons, List.sum_nil]
            omega

lemma chunk_fold_forward (limit : Nat) (cs : List Nat) :
    ∀ acc : StreamAcc, acc.destroyed = false →
      (cs.foldl (fileChunkStep limit) acc).destroyed = false →
      (cs.foldl (fileChunkStep limit) acc).forwarded = acc.forwarded ++ cs := by
  induction cs with
  | nil =>
      intro acc _ _
      simp
  | cons c cs ih =>
      intro acc h hfin
      simp only [List.foldl_cons] at *
      by_cases hc : 0 < limit ∧ limit < acc.fileSize + c
      · have hstep : fileChunkStep limit acc c =
            { acc with
              fileSize := acc.fileSize + c
              destroyed := true
              errorSet := true } := by
          simp [fileChunkStep, h, hc]
        rw [hstep] at hfin
        rw [chunk_fold_destroyed limit cs _ rfl] at hfin
        exact absurd hfin (by simp)
      · have hstep : fileChunkStep limit acc c =
            { acc with
              fileSize := acc.fileSize + c
              forwarded := acc.forwarded ++ [c] } := by
          simp [fileChunkStep, h, hc]
        rw [hstep] at hfin ⊢
        rw [ih { acc with
            fileSize := acc.fileSize + c
            forwarded := acc.forwarded ++ [c] } h hfin]
        simp

/-- C7: the streaming iterator enforces fileSize by live byte counting
on every file part, independently of the built-in truncation of the
tokenizer: with a positive (truthy) configured limit, the part stream
is destroyed with the FileSizeLimit error and the terminal error is
recorded exactly when the produced bytes exceed the limit; the bytes
forwarded to the consumer never exceed the limit; and a part within the
limit is forwarded in full, undisturbed. -/
theorem parts_size_enforcement (limit : Nat) (chunks : List Nat)
    (h : 0 < limit) :
    ((chunkRun limit chunks).destroyed = true ↔ limit < chunks.sum)
    ∧ (chunkRun limit chunks).errorSet = (chunkRun limit chunks).destroyed
    ∧ (chunkRun limit chunks).forwarded.sum ≤ limit
    ∧ ((chunkRun limit chunks).destroyed = false →
        (chunkRun limit chunks).forwarded = chunks) := by
  have h1 := chunk_fold_destroyed_iff limit chunks h initStreamAcc rfl
    (Nat.zero_le _)
  have h2 := chunk_fold_inv limit chunks h initStreamAcc rfl
    (Nat.zero_le _) (fun _ => rfl)
  have h3 := chunk_fold_forward limit chunks initStreamAcc rfl
  refine ⟨?_, h2.1, h2.2, fun hd => ?_⟩
  · simpa [chunkRun, initStreamAcc] using h1
  · simpa [chunkRun, initStreamAcc] using h3 hd

/-- Witness for C7: limit 3, two chunks of 2 bytes: the stream is
destroyed with the error recorded, only the first chunk was forwarded;
the same chunks under limit 5 pass through in full. -/
theorem parts_size_enforcement_witness :
    (chunkRun 3 [2, 2]).destroyed = true
    ∧ (chunkRun 3 [2, 2]).errorSet = (chunkRun 3 [2, 2]).destroyed
    ∧ (chunkRun 3 [2, 2]).forwarded.sum ≤ 3
    ∧ (chunkRun 5 [2, 2]).forwarded = [2, 2] :=
  ⟨(parts_size_enforcement 3 [2, 2] (by decide)).1.mpr (by decide),
   (parts_size_enforcement 3 [2, 2] (by decide)).2.1,
   (parts_size_enforcement 3 [2, 2] (by decide)).2.2.1,
   (parts_size_enforcement 5 [2, 2] (by decide)).2.2.2 (by decide)⟩

end FastifyMultipart
